import Mathlib

/-!
Verification of `src/rules/list-item.js` from awesome-jellyfin/awesome-lint.

The source file is a remark lint rule over mdast trees.  We shallowly embed
the mdast node shape, the string/regex predicates, and the validator
pipeline as executable Lean definitions, and prove the frozen claims about
them.  External npm collaborators (emoji matcher, casing classifier, URL
checker, identifier allow-list) are not part of this repository; they are
modelled from the spec as concrete executable functions, each marked with a
doc comment starting with the modelling note.

Strings are treated as sequences of Unicode code points (Lean `Char`); the
JavaScript source indexes UTF-16 units, but every property proved here only
depends on prefix/suffix/membership structure that is invariant under this
change of measure for the characters involved.
-/

namespace AwesomeLint

/-- The mdast node kinds that `list-item.js` inspects via `node.type`. -/
inductive NodeType where
  | text
  | emphasis
  | strong
  | inlineCode
  | link
  | linkReference
  | image
  | html
  | footnoteReference
  | paragraph
  | heading
  | list
  | listItem
  | blockquote
  | root
  deriving DecidableEq, Repr

/-- An mdast node: tagged record with the fields the rule reads
(`type`, `value`, `url`, `alt`, `depth`, `children`).  `value`, `url`,
`alt` and `depth` are optional because JavaScript distinguishes absent
properties (the check whether `value` is present on the node). -/
inductive Node where
  | mk : NodeType → Option String → Option String → Option String → Option Nat → List Node → Node

def Node.type : Node → NodeType
  | .mk t _ _ _ _ _ => t

def Node.value : Node → Option String
  | .mk _ v _ _ _ _ => v

def Node.url : Node → Option String
  | .mk _ _ u _ _ _ => u

def Node.alt : Node → Option String
  | .mk _ _ _ a _ _ => a

def Node.depth : Node → Option Nat
  | .mk _ _ _ _ d _ => d

def Node.children : Node → List Node
  | .mk _ _ _ _ _ cs => cs

mutual

/-- `toString` from mdast-util-to-string: prefer `value`, then a non-empty
`alt`, then the concatenation of the children. -/
def Node.toStr : Node → String
  | .mk _ (some v) _ _ _ _ => v
  | .mk _ none _ (some a) _ cs => if a == "" then listToStr cs else a
  | .mk _ none _ none _ cs => listToStr cs

/-- Concatenation of `toStr` over a node list (the `all` helper of
mdast-util-to-string). -/
def listToStr : List Node → String
  | [] => ""
  | n :: ns => Node.toStr n ++ listToStr ns

end

mutual

/-- Structural node equality; mdast trees have no sharing, so structural
equality coincides with the reference equality used by `indexOf`. -/
def Node.beq : Node → Node → Bool
  | .mk t1 v1 u1 a1 d1 c1, .mk t2 v2 u2 a2 d2 c2 =>
    t1 == t2 && v1 == v2 && u1 == u2 && a1 == a2 && d1 == d2 && listBeq c1 c2

def listBeq : List Node → List Node → Bool
  | [], [] => true
  | x :: xs, y :: ys => Node.beq x y && listBeq xs ys
  | _, _ => false

end

instance : BEq Node := ⟨Node.beq⟩

/-! ## Character classes used by the regular expressions of the source -/

/-- The backtick character (code point 96). -/
def tickChar : Char := Char.ofNat 96

/-- The apostrophe character (code point 39). -/
def aposChar : Char := Char.ofNat 39

/-- The no-break space (U+00A0), written ` ` in the source. -/
def nbspChar : Char := Char.ofNat 160

/-- JavaScript `\s`: whitespace characters (the ones that can occur in the
texts this rule handles). -/
def isWs (c : Char) : Bool :=
  c == ' ' || c == '\t' || c == '\n' || c == '\r' ||
  c == Char.ofNat 11 || c == Char.ofNat 12 || c == nbspChar || c == Char.ofNat 0xFEFF

/-- The terminal punctuation class `[.!?…]` of the source. -/
def isPunctChar (c : Char) : Bool :=
  c == '.' || c == '!' || c == '?' || c == '…'

/-- The quote class `["”]` of the source. -/
def isQuoteChar (c : Char) : Bool :=
  c == '"' || c == '”'

/-- The separator class of `tokenizeWords`: dash, space, semicolon,
period, slash, apostrophe. -/
def isSepChar (c : Char) : Bool :=
  c == '-' || c == ' ' || c == ';' || c == '.' || c == '/' || c == aposChar

/-- JavaScript `\w` (`[A-Za-z0-9_]`). -/
def isWordChar (c : Char) : Bool :=
  c.isAlphanum || c == '_'

/-! ## String helpers (JavaScript semantics) -/

/-- JavaScript `String.prototype.trim`. -/
def jsTrim (s : String) : String :=
  String.mk (((s.toList.dropWhile isWs).reverse.dropWhile isWs).reverse)

/-- JavaScript `String.prototype.trimEnd`. -/
def jsTrimEnd (s : String) : String :=
  String.mk ((s.toList.reverse.dropWhile isWs).reverse)

/-- `/^\s*$/.test s`: the string consists only of whitespace. -/
def wsOnly (s : String) : Bool :=
  s.toList.all isWs

/-- `descriptionText.startsWith(" - ")`. -/
def startsWithDashSep (s : String) : Bool :=
  match s.toList with
  | ' ' :: '-' :: ' ' :: _ => true
  | _ => false

/-! ## Modelled external collaborators -/

/-- Modelled from the spec: the external Unicode emoji matcher (the
emoji-regex npm package is outside this repository).  It is instantiated
over a representative finite set of single-code-point emoji; every match of
the modelled matcher has length one. -/
def isEmojiChar (c : Char) : Bool :=
  c == '✅' || c == '⭐' || c == '❗' || c == '🔥' || c == '🚀' || c == '👍'

/-- `text.replace(emojiRegex(), "")`: the emoji-regex object carries the
global flag, so every match is removed. -/
def stripEmoji (s : String) : String :=
  String.mk (s.toList.filter (fun c => !isEmojiChar c))

/-- `textEndsWithEmoji` from the source: the last emoji match must end at
the end of the text.  With the modelled single-code-point matcher this
holds exactly when the final character is an emoji. -/
def textEndsWithEmoji (s : String) : Bool :=
  match s.toList.reverse with
  | [] => false
  | c :: _ => isEmojiChar c

/-- `tokenizeWords` from the source:
split on the separator class and drop the empty tokens. -/
def splitSep : List Char → List (List Char)
  | [] => [[]]
  | c :: cs =>
    if isSepChar c then [] :: splitSep cs
    else
      match splitSep cs with
      | t :: ts => (c :: t) :: ts
      | [] => [[c]]

def tokenizeWords (s : String) : List String :=
  ((splitSep s.toList).map String.mk).filter (fun t => t != "")

/-- `tokens.at(-1)` fed to `textEndsWithEmoji`; for an empty token list the
JavaScript call receives `undefined` (stringified, containing no emoji) and
returns false. -/
def lastTokenEndsEmoji (s : String) : Bool :=
  match (tokenizeWords s).getLast? with
  | some t => textEndsWithEmoji t
  | none => false

/-- Modelled from the spec: the generic absolute-URL syntax validator
(the is-url-superb npm package is outside this repository); it requires an
alphabetic scheme, the `://` separator and a non-empty whitespace-free
remainder. -/
def urlAfterScheme : List Char → Bool
  | ':' :: '/' :: '/' :: rest => rest != [] && rest.all (fun c => !isWs c)
  | c :: cs => c.isAlpha && urlAfterScheme cs
  | [] => false

def isUrl (s : String) : Bool :=
  match s.toList with
  | c :: cs => c.isAlpha && urlAfterScheme cs
  | [] => false

/-- Modelled from the spec: the external casing classifier (the case npm
package is outside this repository), returning a style tag; only the tags
relevant to the allow-list check are distinguished. -/
def caseOf (s : String) : String :=
  let cs := s.toList
  if cs.isEmpty then "other"
  else if cs.all (fun c => c.isLower || c.isDigit) then "lower"
  else if cs.all (fun c => c.isUpper || c.isDigit) then
    (if cs.length == 1 then "upper" else "constant")
  else if cs.all (fun c => c.isAlphanum) then
    (match cs with
     | c :: rest =>
       if c.isUpper && rest.all (fun d => d.isLower || d.isDigit) then "capital"
       else if c.isUpper then "pascal"
       else "camel"
     | [] => "other")
  else "other"

/-- Modelled from the spec: the identifier allow-list data source
(`src/lib/identifier-allow-list.js` is not in the corpus); the spec
describes it only as a static set of literal exception words (acronyms and
proper nouns), modelled here by a representative set. -/
def identifierAllowList : List String :=
  ["API", "CLI", "DevOps", "GitHub", "iOS", "macOS", "npm"]

/-! ## Regex predicates of `validateListItemSuffix` and friends

Each definition embeds one regular-expression test of the source; the
original pattern is quoted in the doc comment.  `.` in a JavaScript regex
does not match a newline, hence the explicit newline guards. -/

/-- Tail scanner for `/^`.*[.!?…]*`[.!?…]*$/` after the leading backtick:
there must be a later backtick whose suffix is all terminal punctuation,
with no newline before it. -/
def tickThenPunct : List Char → Bool
  | [] => false
  | c :: cs =>
    (c == tickChar && cs.all isPunctChar) || (c != '\n' && tickThenPunct cs)

/-- `/^`.*[.!?…]*`[.!?…]*$/.test descriptionText`: the description is one
fully backticked span, optionally followed by terminal punctuation. -/
def fullyBackticked (s : String) : Bool :=
  match s.toList with
  | c :: rest => c == tickChar && tickThenPunct rest
  | [] => false

/-- Scanner for the `.+$` tail of `/^`.+`.+`.+$/`. -/
def tailNonempty (cs : List Char) : Bool :=
  cs != [] && cs.all (fun c => c != '\n')

/-- Scanner for `.+`.+$` (rest of second segment onwards). -/
def tickSeg2Go : List Char → Bool
  | [] => false
  | c :: cs => (c == tickChar && tailNonempty cs) || (c != '\n' && tickSeg2Go cs)

def tickSeg2 : List Char → Bool
  | [] => false
  | c :: cs => c != '\n' && tickSeg2Go cs

/-- Scanner for `.+`.+`.+$` (after the leading backtick). -/
def tickSeg1Go : List Char → Bool
  | [] => false
  | c :: cs => (c == tickChar && tickSeg2 cs) || (c != '\n' && tickSeg1Go cs)

/-- `/^`.+`.+`.+$/.test descriptionText`: at least three backticks with
non-empty gaps, i.e. multiple distinct backtick spans. -/
def multiBackticked (s : String) : Bool :=
  match s.toList with
  | c :: d :: cs => c == tickChar && d != '\n' && tickSeg1Go cs
  | _ => false

/-- After the trailing punctuation run (reversed scan): keep skipping
punctuation until a quote is found. -/
def revSkipPunctToQuote : List Char → Bool
  | [] => false
  | c :: cs => isQuoteChar c || (isPunctChar c && revSkipPunctToQuote cs)

/-- `/.*(?<=["”])[.!?…]+$/.test descriptionText`: the text ends with one or
more terminal punctuation marks whose run is directly preceded by a
double quote. -/
def endsQuoteThenPunct (s : String) : Bool :=
  match s.toList.reverse with
  | c :: cs => isPunctChar c && revSkipPunctToQuote cs
  | [] => false

/-- Reversed scan for `[.!?…]["”][.!?…]+$`: after the trailing punctuation
run comes a quote and then another punctuation mark. -/
def revSkipPunctToQuotePunct : List Char → Bool
  | [] => false
  | c :: cs =>
    (isQuoteChar c && (match cs with | d :: _ => isPunctChar d | [] => false)) ||
    (isPunctChar c && revSkipPunctToQuotePunct cs)

/-- `/.*[.!?…]["”][.!?…]+$/.test descriptionText`. -/
def endsPunctQuotePunct (s : String) : Bool :=
  match s.toList.reverse with
  | c :: cs => isPunctChar c && revSkipPunctToQuotePunct cs
  | [] => false

/-- `/.*[.!?…]["”]?$/.test descriptionText`: terminal punctuation,
optionally closed by a double quote. -/
def endsPunctOptQuote (s : String) : Bool :=
  match s.toList.reverse with
  | [] => false
  | c :: cs =>
    isPunctChar c ||
    (isQuoteChar c && (match cs with | d :: _ => isPunctChar d | [] => false))

/-- `/[.!?…]/.test descriptionText`. -/
def containsPunct (s : String) : Bool :=
  s.toList.any isPunctChar

/-- `/\)\s*$/.test suffixText`: a closing parenthesis followed only by
whitespace. -/
def endsCloseParenWs : List Char → Bool
  | [] => false
  | c :: cs => if isWs c then endsCloseParenWs cs else c == ')'

def endsCloseParen (s : String) : Bool :=
  endsCloseParenWs s.toList.reverse

/-- `/^[\s\u00A0]-[\s\u00A0]/.test dashText`: dash surrounded by (possibly
exotic) whitespace. -/
def reWhitespaceDash (s : String) : Bool :=
  match s.toList with
  | a :: '-' :: b :: _ => isWs a && isWs b
  | _ => false

/-- `/^\s*[/\u{02013}\u{02014}]/u.test dashText`: optional whitespace and
then a slash, en-dash or em-dash. -/
def reEnEmDashGo : List Char → Bool
  | [] => false
  | c :: cs => if isWs c then reEnEmDashGo cs else c == '/' || c == '–' || c == '—'

def reEnEmDash (s : String) : Bool :=
  reEnEmDashGo s.toList

/-- Scanner for `[^)]*\)\s*$` after at least one body character: the first
closing parenthesis must be followed only by whitespace. -/
def parenRestWs : List Char → Bool
  | [] => false
  | c :: cs => if c == ')' then cs.all isWs else parenRestWs cs

/-- `/^\s\([^)]+\)\s*$/.test descriptionText`: one whitespace character, a
parenthetical, trailing whitespace. -/
def reSingleParen (s : String) : Bool :=
  match s.toList with
  | a :: '(' :: b :: rest => isWs a && b != ')' && parenRestWs (b :: rest)
  | _ => false

/-- Scanner for `[^)]*\)$` after at least one body character. -/
def parenRestEnd : List Char → Bool
  | [] => false
  | c :: cs => if c == ')' then cs.isEmpty else parenRestEnd cs

/-- `/^\([^)]+\)$/.test text`: the whole string is one parenthetical. -/
def reParenOnly (s : String) : Bool :=
  match s.toList with
  | '(' :: b :: rest => b != ')' && parenRestEnd (b :: rest)
  | _ => false

/-! ## Diagnostics

`file.message(text, node)` is modelled by appending a message tag; each
tag stands for one literal message string of the source.  The claims only
inspect which messages an entry produces, so the offending node of a
diagnostic is not carried. -/

/-- One message per `file.message` call site of the source. -/
inductive Msg where
  | invalidListItem
  /-- The message `Invalid list item link` (wrong node kind or child). -/
  | invalidLink
  | invalidLinkUrl
  | invalidLinkText
  /-- Separated by invalid whitespace. -/
  | sepInvalidWhitespace
  /-- Separated by invalid en-dash or em-dash. -/
  | sepEnEmDash
  /-- Must be separated with a dash. -/
  | sepMissingDash
  /-- Must not consist of only badges. -/
  | onlyBadges
  /-- Must end with proper punctuation. -/
  | missingPunctuation
  /-- Contains invalid markdown. -/
  | invalidMarkdown
  /-- Must start with a non-empty string. -/
  | emptyDescriptionStart
  /-- Must start with valid casing. -/
  | invalidCasing
  deriving DecidableEq, Repr

/-! ## Allow-lists (module-level constants of the source) -/

def listItemPrefixCaseAllowList : List String :=
  ["camel", "capital", "constant", "pascal", "upper"]

def listItemLinkNodeAllowList : List NodeType :=
  [.emphasis, .inlineCode, .text]

def listItemDescriptionNodeAllowList : List NodeType :=
  [.emphasis, .footnoteReference, .html, .image, .inlineCode, .link,
   .linkReference, .strong, .text]

def listItemDescriptionSuffixNodeAllowList : List NodeType :=
  [.emphasis, .html, .image, .link, .strong, .text]

/-! ## The validators -/

/-- `validateListItemSpecialCases` from the source.  (The `description`
parameter of the source function is unused there and dropped here.) -/
def validateListItemSpecialCases (descriptionText : String) : Bool :=
  if startsWithDashSep descriptionText then false
  else
    let text := jsTrim (stripEmoji descriptionText)
    if text == "" then true
    else if reSingleParen descriptionText then true
    else if reParenOnly text then true
    else false

/-- `validateListItemPrefix` from the source (renamed: Lean name hygiene),
deciding whether the dash element is an acceptable description start. -/
def validateListItemDashSep (descriptionText prefixText : String) : Bool :=
  if startsWithDashSep prefixText then true
  else if textEndsWithEmoji prefixText && descriptionText == prefixText then true
  else false

/-- First word of the stripped dash text, all `\W` characters removed. -/
def stripNonWordChars (s : String) : String :=
  String.mk (s.toList.filter isWordChar)

/-- `/\d/.test firstWord`. -/
def containsDigit (s : String) : Bool :=
  s.toList.any Char.isDigit

/-- The first-character test on firstWord: straight quote, curly opening
quote, apostrophe, or opening parenthesis. -/
def startsWithQuoteParen (s : String) : Bool :=
  match s.toList with
  | c :: _ => c == '"' || c == '“' || c == aposChar || c == '('
  | [] => false

/-- `validateListItemPrefixCasing` from the source; returns the boolean
result together with the messages it reported.  It is only called on dash
elements, which are text nodes, so `value` is present. -/
def validateListItemPrefixCasing (pfx : Node) : Bool × List Msg :=
  -- strippedPrefix is `prefix.value.slice(3)`
  match (tokenizeWords (String.mk ((pfx.value.getD "").toList.drop 3))).head? with
  | none => (false, [Msg.emptyDescriptionStart])
  | some firstWord =>
    if !(listItemPrefixCaseAllowList.contains (caseOf (stripNonWordChars firstWord))) &&
       !(containsDigit firstWord) &&
       !(startsWithQuoteParen firstWord) &&
       !(identifierAllowList.contains firstWord)
    then (false, [Msg.invalidCasing])
    else (true, [])

/-- `validateListItemSuffix` from the source: the terminal punctuation
decision procedure over the flattened description prefix and the last
element text. -/
def validateListItemSuffix (descriptionText suffixText : String) : Bool :=
  if fullyBackticked descriptionText then
    -- Still allow multiple backticks if the whole description is not fully quoted.
    multiBackticked descriptionText
  else if endsQuoteThenPunct descriptionText then
    -- If the quote follows a regular punctuation, this is wrong.
    !(endsPunctQuotePunct descriptionText)
  else if endsPunctOptQuote descriptionText then true
  else if !(containsPunct descriptionText) &&
          (decide (2 < (tokenizeWords descriptionText).length) ||
            !(lastTokenEndsEmoji descriptionText)) then
    -- Description contains no punctuation and is not a short emoji-closed one.
    false
  else if endsCloseParen suffixText then true
  else if textEndsWithEmoji suffixText then true
  else false

/-- An element skipped by the badge-trimming loop: an inline-code node or a
whitespace-only text node. -/
def isBadge (n : Node) : Bool :=
  n.type == NodeType.inlineCode ||
    (n.type == NodeType.text && wsOnly n.toStr)

/-- The badge-trimming loop: `description.slice(0, lastNonBadgeIndex + 1)`
where `lastNonBadgeIndex` scans from the end while `isBadge` holds. -/
def stripBadges (description : List Node) : List Node :=
  (description.reverse.dropWhile isBadge).reverse

/-- The flattened text handed to the punctuation check: the text of the
prefix before badges, right-trimmed exactly when badges were stripped
(`hasBadges`). -/
def suffixCheckText (description beforeBadges : List Node) : String :=
  let t := listToStr beforeBadges
  if beforeBadges.length < description.length then jsTrimEnd t else t

/-- The verdict of the terminal punctuation step on a description sequence:
badge trimming followed by `validateListItemSuffix`, exactly as performed
inside `validateListItemDescription`; `none` when the step does not run
(emptied sequence or non-text terminal element). -/
def descPunctVerdict (description : List Node) : Option Bool :=
  let beforeBadges := stripBadges description
  match beforeBadges.getLast? with
  | none => none
  | some suffixWithoutBadge =>
    if suffixWithoutBadge.type == NodeType.text then
      some (validateListItemSuffix (suffixCheckText description beforeBadges)
        suffixWithoutBadge.toStr)
    else none

/-- In the source, the mixed-markup branch guards the casing check with
`dash.length > 3`.  `dash` is an mdast node object, which has no `length`
property, so the access yields `undefined`, and `undefined > 3` evaluates
to `false`: the guard can never be taken. -/
def dashLengthGtThree (_dash : Node) : Bool := false

/-- `validateListItemDescription` from the source, returning the reported
messages (at most one).  Reference equality `dash === suffixWithoutBadge`
holds exactly when `beforeBadges` has length one, because both are elements
of the same tree (no sharing) at indices `0` and `beforeBadges.length - 1`. -/
def validateListItemDescription (description : List Node) : List Msg :=
  match description with
  | [] => []
  | dash :: _ =>
    let descriptionText := listToStr description
    if validateListItemSpecialCases descriptionText then []
    else
      let dashText := dash.toStr
      if !(dash.type == NodeType.text) ||
         !(validateListItemDashSep descriptionText dashText) then
        if reWhitespaceDash dashText then [Msg.sepInvalidWhitespace]
        else if reEnEmDash dashText then [Msg.sepEnEmDash]
        else [Msg.sepMissingDash]
      else
        let beforeBadges := stripBadges description
        match beforeBadges.getLast? with
        | none => [Msg.onlyBadges]
        | some suffixWithoutBadge =>
          if !(listItemDescriptionSuffixNodeAllowList.contains suffixWithoutBadge.type) then
            [Msg.missingPunctuation]
          else
            let suffixOk : Bool :=
              if suffixWithoutBadge.type == NodeType.text then
                validateListItemSuffix (suffixCheckText description beforeBadges)
                  suffixWithoutBadge.toStr
              else true
            if !suffixOk then [Msg.missingPunctuation]
            else if beforeBadges.length == 1 then
              -- dash === suffixWithoutBadge: description contains pure text
              (validateListItemPrefixCasing dash).2
            else if beforeBadges.any
                (fun n => !(listItemDescriptionNodeAllowList.contains n.type)) then
              [Msg.invalidMarkdown]
            else if dashLengthGtThree dash then
              (validateListItemPrefixCasing dash).2
            else []

/-- `validateListItemLinkChildren` from the source, over the child list. -/
def validateListItemLinkChildren : List Node → Bool × List Msg
  | [] => (true, [])
  | n :: ns =>
    if listItemLinkNodeAllowList.contains n.type then validateListItemLinkChildren ns
    else (false, [Msg.invalidLink])

/-- `validateListItemLink` from the source.  A `link` node always carries a
`url` string in mdast; an absent one is read as the empty string, which the
URL checker rejects just as is-url-superb rejects `undefined`. -/
def validateListItemLink (link : Node) : Bool × List Msg :=
  if link.type == NodeType.linkReference then (true, [])
  else if !(link.type == NodeType.link) then (false, [Msg.invalidLink])
  else if !(isUrl (link.url.getD "")) then (false, [Msg.invalidLinkUrl])
  else if Node.toStr link == "" then (false, [Msg.invalidLinkText])
  else (true, [])

/-- The filler-skipping loop of `validateList`: while the candidate is not
link-like and more than one description element remains, shift by one. -/
def skipFiller : Node → List Node → Node × List Node
  | link, [] => (link, [])
  | link, [d] => (link, [d])
  | link, d :: d2 :: ds =>
    if !(link.type == NodeType.linkReference) && !(link.type == NodeType.link) then
      skipFiller d (d2 :: ds)
    else (link, d :: d2 :: ds)

/-- The body of the per-entry loop of `validateList`: all messages the rule
reports for one list item. -/
def validateEntry (listItem : Node) : List Msg :=
  match listItem.children.head? with
  | none => [Msg.invalidListItem]
  | some paragraph =>
    if !(paragraph.type == NodeType.paragraph) || paragraph.children.isEmpty then
      [Msg.invalidListItem]
    else
      match paragraph.children with
      | [] => [Msg.invalidListItem]
      | link0 :: description0 =>
        if link0.type == NodeType.text then []
        else
          let ld := skipFiller link0 description0
          let r1 := validateListItemLink ld.1
          if !r1.1 then r1.2
          else
            let r2 := validateListItemLinkChildren ld.1.children
            if !r2.1 then r1.2 ++ r2.2
            else r1.2 ++ r2.2 ++ validateListItemDescription ld.2

/-- `validateList` from the source: each entry is processed in order; a
failing entry contributes its diagnostic and processing continues. -/
def validateEntries : List Node → List Msg
  | [] => []
  | e :: es => validateEntry e ++ validateEntries es

def validateList (list : Node) : List Msg :=
  validateEntries list.children

/-- The outer loop of the rule over the selected lists. -/
def runLists : List Node → List Msg
  | [] => []
  | l :: ls => validateList l ++ runLists ls

/-! ## Scope selection (`listItemRule` itself) -/

mutual

/-- `unist-util-find`: the first node of the tree, in preorder, satisfying
the predicate (the root itself is tested first). -/
def findNode (p : Node → Bool) : Node → Option Node
  | Node.mk t v u a d cs =>
    if p (Node.mk t v u a d cs) then some (Node.mk t v u a d cs)
    else findInChildren p cs

def findInChildren (p : Node → Bool) : List Node → Option Node
  | [] => none
  | c :: cs =>
    match findNode p c with
    | some r => some r
    | none => findInChildren p cs

end

mutual

/-- `findAllLists` from the source: visiting every list node collects
every list node of the tree in preorder. -/
def collectLists : Node → List Node
  | Node.mk t v u a d cs =>
    (if t == NodeType.list then [Node.mk t v u a d cs] else []) ++ collectListsIn cs

def collectListsIn : List Node → List Node
  | [] => []
  | c :: cs => collectLists c ++ collectListsIn cs

end

mutual

/-- Whether a subtree contains a heading node anywhere (used to state the
claim about documents with no heading after the table of contents). -/
def hasHeading : Node → Bool
  | Node.mk t _ _ _ _ cs => t == NodeType.heading || hasHeadingIn cs

def hasHeadingIn : List Node → Bool
  | [] => false
  | c :: cs => hasHeading c || hasHeadingIn cs

end

/-- `extractSublists` from the source. -/
def extractSublists : List Node → List Node
  | [] => []
  | l :: ls => collectLists l ++ extractSublists ls

/-- `parent.children.indexOf(child)` (reference equality; structural
equality coincides on sharing-free mdast trees). -/
def indexOfNode (target : Node) : List Node → Option Nat
  | [] => none
  | c :: cs =>
    if Node.beq c target then some 0
    else (indexOfNode target cs).map (· + 1)

/-- `unist-util-find-all-after`: the direct children of `ast` after
`target` whose type matches; `none` models the TypeError thrown when
`target` is not a direct child. -/
def findAllAfter (ast target : Node) (t : NodeType) : Option (List Node) :=
  match indexOfNode target ast.children with
  | none => none
  | some i => some (((ast.children.drop (i + 1)).filter (fun n => n.type == t)))

/-- Minimal-length search for the closing `-->` of an HTML comment with no
newline before it (the regex `.` does not match newlines and `.*?` is
lazy). -/
def findCommentEnd : List Char → Option (List Char)
  | '-' :: '-' :: '>' :: rest => some rest
  | '\n' :: _ => none
  | _ :: cs => findCommentEnd cs
  | [] => none

/-- `replaceAll(/<!--.*?-->/g, "")`, character scan.  The fuel is the
length of the input; every step consumes at least one input character, so
the fuel is never exhausted on the initial call. -/
def removeCommentsGo : Nat → List Char → List Char
  | 0, cs => cs
  | _ + 1, [] => []
  | fuel + 1, '<' :: '!' :: '-' :: '-' :: rest =>
    (match findCommentEnd rest with
     | some remainder => removeCommentsGo fuel remainder
     | none => '<' :: removeCommentsGo fuel ('!' :: '-' :: '-' :: rest))
  | fuel + 1, c :: cs => c :: removeCommentsGo fuel cs

def removeHtmlComments (s : String) : String :=
  String.mk (removeCommentsGo s.toList.length s.toList)

/-- The table-of-contents predicate of `listItemRule`: a depth-2 heading
whose stringified text, HTML comments removed and trimmed, is `Contents`. -/
def contentsHeading (n : Node) : Bool :=
  n.type == NodeType.heading && n.depth == some 2 &&
    jsTrim (removeHtmlComments n.toStr) == "Contents"

/-- `listItemRule` from the source.  `none` models the TypeError thrown by
`findAllAfter` when the found heading is not a direct child of the root;
`some msgs` is a normal run reporting `msgs`. -/
def listItemRule (ast : Node) : Option (List Msg) :=
  let lists := collectLists ast
  match findNode contentsHeading ast with
  | none => some (runLists lists)
  | some toc =>
    match findAllAfter ast toc NodeType.heading with
    | none => none
    | some hs =>
      match hs.head? with
      | none => some []
      | some postContentsHeading =>
        match findAllAfter ast postContentsHeading NodeType.list with
        | none => none
        | some ls => some (runLists (extractSublists ls))

/-! ## Concrete node builders for the examples -/

def textN (s : String) : Node := Node.mk NodeType.text (some s) none none none []

def inlineCodeN (s : String) : Node := Node.mk NodeType.inlineCode (some s) none none none []

def emphasisN (cs : List Node) : Node := Node.mk NodeType.emphasis none none none none cs

def linkN (url : String) (cs : List Node) : Node :=
  Node.mk NodeType.link none (some url) none none cs

def linkRefN (cs : List Node) : Node :=
  Node.mk NodeType.linkReference none none none none cs

def imageN (alt : String) : Node := Node.mk NodeType.image none none (some alt) none []

def paragraphN (cs : List Node) : Node := Node.mk NodeType.paragraph none none none none cs

def listItemN (cs : List Node) : Node := Node.mk NodeType.listItem none none none none cs

def listN (cs : List Node) : Node := Node.mk NodeType.list none none none none cs

def headingN (d : Nat) (cs : List Node) : Node :=
  Node.mk NodeType.heading none none none (some d) cs

def rootN (cs : List Node) : Node := Node.mk NodeType.root none none none none cs

/-! ## Helper lemmas -/

theorem isEmojiChar_not_isWs {c : Char} (h : isEmojiChar c = true) : isWs c = false := by
  simp only [isEmojiChar, Bool.or_eq_true, beq_iff_eq] at h
  rcases h with ((((h | h) | h) | h) | h) | h <;> subst h <;> decide

theorem isQuoteChar_not_isPunctChar {c : Char} (h : isQuoteChar c = true) :
    isPunctChar c = false := by
  simp only [isQuoteChar, Bool.or_eq_true, beq_iff_eq] at h
  rcases h with h | h <;> subst h <;> decide

theorem wsOnly_not_endsWithEmoji {s : String} (h : wsOnly s = true) :
    textEndsWithEmoji s = false := by
  unfold textEndsWithEmoji
  cases hrev : s.toList.reverse with
  | nil => rfl
  | cons c cs =>
    have hc : c ∈ s.toList := by
      rw [← List.mem_reverse, hrev]; exact List.mem_cons_self c cs
    have hwc : isWs c = true := (List.all_eq_true.mp h) c hc
    cases hemoji : isEmojiChar c with
    | false => exact hemoji
    | true => rw [isEmojiChar_not_isWs hemoji] at hwc; cases hwc

theorem startsWithDashSep_not_wsOnly {s : String} (h : startsWithDashSep s = true) :
    wsOnly s = false := by
  unfold startsWithDashSep at h
  split at h
  · next heq =>
    rename_i rest
    unfold wsOnly
    rw [heq]
    simp [isWs, nbspChar]
  · cases h

/-- A dash element that passed `validateListItemDashSep` is not badge-like. -/
theorem dashSep_not_isBadge {dash : Node} {descText : String}
    (htype : dash.type = NodeType.text)
    (hsep : validateListItemDashSep descText dash.toStr = true) :
    isBadge dash = false := by
  unfold isBadge
  rw [htype]
  have hws : wsOnly dash.toStr = false := by
    unfold validateListItemDashSep at hsep
    split at hsep
    · next hstart => exact startsWithDashSep_not_wsOnly hstart
    · split at hsep
      · next hcond =>
        have hemoji : textEndsWithEmoji dash.toStr = true := by
          have hconj := hcond
          simp only [Bool.and_eq_true] at hconj
          exact hconj.1
        cases hwsv : wsOnly dash.toStr with
        | false => rfl
        | true => rw [wsOnly_not_endsWithEmoji hwsv] at hemoji; cases hemoji
      · cases hsep
  simp [hws]

theorem stripBadges_cons_ne_nil {d : Node} {rest : List Node}
    (h : isBadge d = false) : stripBadges (d :: rest) ≠ [] := by
  intro hnil
  unfold stripBadges at hnil
  rw [List.reverse_eq_nil_iff] at hnil
  have hall := List.dropWhile_eq_nil_iff.mp hnil
  have hd : d ∈ (d :: rest).reverse := by
    rw [List.mem_reverse]; exact List.mem_cons_self d rest
  rw [hall d hd] at h
  cases h

theorem casing_msgs_no_onlyBadges (n : Node) :
    ((validateListItemPrefixCasing n).2).contains Msg.onlyBadges = false := by
  unfold validateListItemPrefixCasing
  split
  · decide
  · split <;> decide

/-! ## Claim C1 -/

/-- C1 counterexample: a description consisting of exactly one inline-code
node fails with the missing-dash-separator diagnostic, not with the
`must not consist of only badges` diagnostic claimed. -/
theorem c1_counterexample :
    validateListItemDescription [inlineCodeN "Beta"] = [Msg.sepMissingDash] ∧
      Msg.sepMissingDash ≠ Msg.onlyBadges := by
  constructor
  · decide
  · decide

/-- C1 (amended): the `must not consist of only badges` diagnostic is never
emitted, for any description sequence: a badges-only sequence is accepted
by the special cases or rejected earlier by the dash-separator check, so
the guarded branch is unreachable. -/
theorem c1_amended (description : List Node) :
    (validateListItemDescription description).contains Msg.onlyBadges = false := by
  unfold validateListItemDescription
  cases description with
  | nil => decide
  | cons dash rest =>
    simp only
    split
    · decide
    · split
      · split
        · decide
        · split <;> decide
      · next hpass =>
        simp only [Bool.or_eq_true, not_or, Bool.not_eq_true, Bool.not_eq_false,
          Bool.not_eq_true', beq_iff_eq] at hpass
        obtain ⟨htype, h2⟩ := hpass
        have hnb : isBadge dash = false := dashSep_not_isBadge htype h2
        cases hlast : (stripBadges (dash :: rest)).getLast? with
        | none =>
          exact absurd (List.getLast?_eq_none_iff.mp hlast) (stripBadges_cons_ne_nil hnb)
        | some suffixWithoutBadge =>
          simp only [hlast]
          repeat' split
          all_goals first
            | exact casing_msgs_no_onlyBadges dash
            | decide

/-! ## Claim C2 -/

/-- C2 failing input: the mixed-markup entry
`[Foo](https://example.com) - a tool for *X* stuff.` -/
def c2Entry : Node :=
  listItemN [paragraphN [linkN "https://example.com" [textN "Foo"],
    textN " - a tool for ", emphasisN [textN "X"], textN " stuff."]]

/-- C2 (code bug): in the mixed-markup branch the source guards the casing
check with `dash.length > 3`, but `dash` is a node (no `length` property),
so the guard is always false and the check never runs.  The claimed input
has a dash text longer than 3 characters whose first word `a` fails the
casing check, yet the entry is accepted with no diagnostic. -/
theorem c2_dash_length_bug :
    validateEntry c2Entry = [] ∧
      (validateListItemPrefixCasing (textN " - a tool for ")).1 = false ∧
      3 < " - a tool for ".length := by
  refine ⟨by decide, by decide, by decide⟩

/-! ## Claim C3 -/

/-- C3 counterexample: an entry whose link candidate is a `linkReference`
with an `image` child receives an `Invalid list item link` diagnostic from
the child-type guard, although the claim promised no link diagnostic
regardless of children. -/
theorem c3_counterexample :
    validateEntry (listItemN [paragraphN [linkRefN [imageN "x"], textN " - Stuff."]]) =
      [Msg.invalidLink] := by
  decide

/-- C3 (amended): `validateListItemLink` succeeds on every `linkReference`
node regardless of its URL, text content, or children; however the
separate child-type guard still applies to it, and a direct child outside
the allowed set yields an `Invalid list item link` diagnostic. -/
theorem c3_amended :
    (∀ (v u a : Option String) (d : Option Nat) (cs : List Node),
        validateListItemLink (Node.mk NodeType.linkReference v u a d cs) = (true, [])) ∧
      validateListItemLinkChildren [imageN "x"] = (false, [Msg.invalidLink]) := by
  refine ⟨fun v u a d cs => rfl, by decide⟩

/-! ## Claim C4 -/

/-- Shape predicate for C4: the text ends in a double quote immediately
preceded by a terminal punctuation mark. -/
def endsQuoteAfterPunct (s : String) : Bool :=
  match s.toList.reverse with
  | q :: p :: _ => isQuoteChar q && isPunctChar p
  | _ => false

/-- Shape predicate for C4: additionally a second terminal punctuation mark
directly precedes the first one. -/
def endsDoublePunctThenQuote (s : String) : Bool :=
  match s.toList.reverse with
  | q :: p :: p2 :: _ => isQuoteChar q && isPunctChar p && isPunctChar p2
  | _ => false

/-- C4 counterexample: `Hi!.”` is not backticked, ends in a quote preceded
by `.` which is itself preceded by the second punctuation mark `!`; the
claim says the check fails here, but the source accepts it. -/
theorem c4_counterexample :
    fullyBackticked "Hi!.”" = false ∧
      endsDoublePunctThenQuote "Hi!.”" = true ∧
      validateListItemSuffix "Hi!.”" "Hi!.”" = true := by
  refine ⟨by decide, by decide, by decide⟩

/-- C4 (amended): for every non-fully-backticked `fullText` ending in a
double quote immediately preceded by terminal punctuation the check
passes, including when a second punctuation mark precedes the quote; the
double-punctuation rejection applies instead to texts where punctuation
follows the quote with further punctuation before it (for example
`Hi.”!` fails). -/
theorem c4_amended :
    (∀ s t : String, fullyBackticked s = false → endsQuoteAfterPunct s = true →
        validateListItemSuffix s t = true) ∧
      validateListItemSuffix "Hi.”!" "Hi.”!" = false := by
  constructor
  · intro s t h1 h2
    unfold endsQuoteAfterPunct at h2
    split at h2
    · next q p rest hrev =>
      simp only [Bool.and_eq_true] at h2
      obtain ⟨hq, hp⟩ := h2
      have e1 : endsQuoteThenPunct s = false := by
        unfold endsQuoteThenPunct
        rw [hrev]
        simp [isQuoteChar_not_isPunctChar hq]
      have e2 : endsPunctOptQuote s = true := by
        unfold endsPunctOptQuote
        rw [hrev]
        simp [hq, hp]
      unfold validateListItemSuffix
      simp [h1, e1, e2]
    · cases h2
  · decide

/-- C4 witness: the amended pass-side at the concrete text `Nice.”`. -/
theorem c4_witness :
    fullyBackticked "Nice.”" = false ∧ endsQuoteAfterPunct "Nice.”" = true ∧
      validateListItemSuffix "Nice.”" "Nice.”" = true :=
  ⟨by decide, by decide, c4_amended.1 "Nice.”" "Nice.”" (by decide) (by decide)⟩

/-! ## Claim C5 -/

theorem dropWhile_append_all {α : Type} {p : α → Bool} {a b : List α}
    (h : ∀ x ∈ a, p x = true) : (a ++ b).dropWhile p = b.dropWhile p := by
  induction a with
  | nil => rfl
  | cons x xs ih =>
    rw [List.cons_append, List.dropWhile_cons]
    rw [h x (List.mem_cons_self x xs)]
    simp only [if_true]
    exact ih (fun y hy => h y (List.mem_cons_of_mem x hy))

/-- Stripping badges from a sequence ending in a badge run recovers exactly
the prefix before the run, provided that prefix ends in a non-badge. -/
theorem stripBadges_append {pre badges : List Node} {l : Node}
    (hb : ∀ b ∈ badges, isBadge b = true)
    (hl : pre.getLast? = some l) (hnb : isBadge l = false) :
    stripBadges (pre ++ badges) = pre ∧ stripBadges pre = pre := by
  have hpr : ∃ t, pre.reverse = l :: t := by
    have := List.head?_reverse pre
    rw [hl] at this
    cases hrev : pre.reverse with
    | nil => rw [hrev] at this; cases this
    | cons x t =>
      rw [hrev] at this
      injection this with hx
      exact ⟨t, by rw [hx]⟩
  obtain ⟨t, hrev⟩ := hpr
  have hdrop : pre.reverse.dropWhile isBadge = pre.reverse := by
    rw [hrev, List.dropWhile_cons, hnb]
    simp
  constructor
  · unfold stripBadges
    rw [List.reverse_append]
    rw [dropWhile_append_all (fun x hx => hb x (List.mem_reverse.mp hx))]
    rw [hdrop, List.reverse_reverse]
  · unfold stripBadges
    rw [hdrop, List.reverse_reverse]

/-- C5 counterexample: for the description `[" - Done. ", `Beta`]` the
punctuation check passes (the badge path right-trims the prefix text), but
the surviving prefix `[" - Done. "]` standing alone fails the same check
(its trailing space survives).  Stripping the badge changed the verdict. -/
theorem c5_counterexample :
    isBadge (inlineCodeN "Beta") = true ∧
      isBadge (textN " - Done. ") = false ∧
      descPunctVerdict [textN " - Done. ", inlineCodeN "Beta"] = some true ∧
      descPunctVerdict [textN " - Done. "] = some false := by
  refine ⟨by decide, by decide, by decide, by decide⟩

/-- C5 (amended): stripping a valid trailing badge run preserves the
punctuation-check verdict whenever the flattened prefix text carries no
trailing whitespace (then the badge-only right-trim is the identity); the
counterexample shows the restriction is necessary. -/
theorem c5_amended (pre badges : List Node) (l : Node)
    (hb : ∀ b ∈ badges, isBadge b = true)
    (hl : pre.getLast? = some l) (hnb : isBadge l = false)
    (htrim : jsTrimEnd (listToStr pre) = listToStr pre) :
    descPunctVerdict (pre ++ badges) = descPunctVerdict pre := by
  obtain ⟨h1, h2⟩ := stripBadges_append hb hl hnb
  unfold descPunctVerdict
  rw [h1, h2]
  have hsct1 : suffixCheckText (pre ++ badges) pre = listToStr pre := by
    unfold suffixCheckText
    split
    · exact htrim
    · rfl
  have hsct2 : suffixCheckText pre pre = listToStr pre := by
    unfold suffixCheckText
    split
    · next hlt => exact absurd hlt (lt_irrefl _)
    · rfl
  simp only [hsct1, hsct2]

/-- C5 witness: with no trailing whitespace on the prefix text, the verdict
with the badge equals the verdict without it. -/
theorem c5_witness :
    descPunctVerdict ([textN " - Done."] ++ [inlineCodeN "Beta"]) =
      descPunctVerdict [textN " - Done."] :=
  c5_amended [textN " - Done."] [inlineCodeN "Beta"] (textN " - Done.")
    (by intro b hb; rw [List.mem_singleton] at hb; subst hb; decide)
    rfl (by decide) (by decide)

/-! ## Claim C6 -/

theorem casing_len (n : Node) : ((validateListItemPrefixCasing n).2).length ≤ 1 := by
  unfold validateListItemPrefixCasing
  split
  · decide
  · split <;> decide

theorem desc_len (d : List Node) : (validateListItemDescription d).length ≤ 1 := by
  unfold validateListItemDescription
  cases d with
  | nil => decide
  | cons dash rest =>
    simp only
    repeat' split
    all_goals first
      | exact casing_len dash
      | decide

theorem link_shape (l : Node) :
    validateListItemLink l = (true, []) ∨
      ∃ m, validateListItemLink l = (false, [m]) := by
  unfold validateListItemLink
  repeat' split
  all_goals first
    | exact Or.inl rfl
    | exact Or.inr ⟨_, rfl⟩

theorem children_shape (ns : List Node) :
    validateListItemLinkChildren ns = (true, []) ∨
      ∃ m, validateListItemLinkChildren ns = (false, [m]) := by
  induction ns with
  | nil => exact Or.inl rfl
  | cons n ns ih =>
    unfold validateListItemLinkChildren
    split
    · exact ih
    · exact Or.inr ⟨_, rfl⟩

theorem entry_len (e : Node) : (validateEntry e).length ≤ 1 := by
  unfold validateEntry
  split
  · decide
  · split
    · decide
    · split
      · decide
      · next link0 description0 heq =>
        split
        · decide
        · rcases link_shape (skipFiller link0 description0).1 with h1 | ⟨m1, h1⟩
          · rcases children_shape ((skipFiller link0 description0).1).children with
              h2 | ⟨m2, h2⟩
            · simp [h1, h2]
              exact desc_len (skipFiller link0 description0).2
            · simp [h1, h2]
          · simp [h1]

/-- C6: each entry of each list produces at most one diagnostic, and the
outer loops process entries and lists independently, concatenating their
diagnostics in order. -/
theorem c6_one_diagnostic_per_entry :
    (∀ e : Node, (validateEntry e).length ≤ 1) ∧
      (∀ list : Node, validateList list = list.children.flatMap validateEntry) ∧
      (∀ lists : List Node, runLists lists = lists.flatMap validateList) := by
  refine ⟨entry_len, fun list => ?_, fun lists => ?_⟩
  · unfold validateList
    induction list.children with
    | nil => rfl
    | cons e es ih => simp only [validateEntries, List.flatMap_cons, ih]
  · induction lists with
    | nil => rfl
    | cons l ls ih => simp only [runLists, List.flatMap_cons, ih]

/-! ## Claim C7 -/

/-- C7: an entry whose first paragraph child leads with a plain text node
is accepted with no diagnostic, whatever the remaining nodes contain. -/
theorem c7_text_led_entries_exempt (entry p c : Node)
    (h1 : entry.children.head? = some p)
    (h2 : p.type = NodeType.paragraph)
    (h3 : p.children.head? = some c)
    (h4 : c.type = NodeType.text) :
    validateEntry entry = [] := by
  unfold validateEntry
  rw [h1]
  cases hpc : p.children with
  | nil => rw [hpc] at h3; cases h3
  | cons c0 rest =>
    rw [hpc] at h3
    injection h3 with hc0
    subst hc0
    simp [h2, hpc, h4]

/-- C7 witness: a concrete text-led entry with a trailing image node. -/
theorem c7_witness :
    validateEntry (listItemN [paragraphN [textN "Preamble", imageN "x"]]) = [] :=
  c7_text_led_entries_exempt (listItemN [paragraphN [textN "Preamble", imageN "x"]])
    (paragraphN [textN "Preamble", imageN "x"]) (textN "Preamble") rfl rfl rfl rfl

/-! ## Claim C8 -/

theorem endsQuoteThenPunct_hasPunct {s : String} (h : endsQuoteThenPunct s = true) :
    containsPunct s = true := by
  unfold endsQuoteThenPunct at h
  split at h
  · next c cs hrev =>
    simp only [Bool.and_eq_true] at h
    have hc : c ∈ s.toList := by
      rw [← List.mem_reverse, hrev]; exact List.mem_cons_self c cs
    exact List.any_eq_true.mpr ⟨c, hc, h.1⟩
  · cases h

theorem endsPunctOptQuote_hasPunct {s : String} (h : endsPunctOptQuote s = true) :
    containsPunct s = true := by
  unfold endsPunctOptQuote at h
  split at h
  · cases h
  · next c cs hrev =>
    rw [Bool.or_eq_true] at h
    have hc : c ∈ s.toList := by
      rw [← List.mem_reverse, hrev]; exact List.mem_cons_self c cs
    rcases h with hp | hq
    · exact List.any_eq_true.mpr ⟨c, hc, hp⟩
    · rw [Bool.and_eq_true] at hq
      obtain ⟨-, hd⟩ := hq
      cases cs with
      | nil => cases hd
      | cons d rest =>
        have hdm : d ∈ s.toList := by
          rw [← List.mem_reverse, hrev]
          exact List.mem_cons_of_mem c (List.mem_cons_self d rest)
        exact List.any_eq_true.mpr ⟨d, hdm, hd⟩

/-- C8 counterexample: `` `a`b`c` `` contains no terminal punctuation and
its single token does not end in an emoji, yet the check passes (through
the multiple-backticks allowance), contradicting the claimed failure. -/
theorem c8_counterexample :
    containsPunct "`a`b`c`" = false ∧
      (tokenizeWords "`a`b`c`").length ≤ 2 ∧
      lastTokenEndsEmoji "`a`b`c`" = false ∧
      validateListItemSuffix "`a`b`c`" "x" = true := by
  refine ⟨by decide, by decide, by decide, by decide⟩

/-- C8 (amended): for every `fullText` that is not an entirely-backticked
span and contains no terminal punctuation, the check fails unless the
tokenization has at most 2 tokens whose last visibly ends in an emoji; and
the entry `[Foo](https://example.com) - Done ✅` is accepted as valid. -/
theorem c8_amended :
    (∀ s t : String, fullyBackticked s = false → containsPunct s = false →
        (2 < (tokenizeWords s).length ∨ lastTokenEndsEmoji s = false) →
        validateListItemSuffix s t = false) ∧
      validateEntry (listItemN [paragraphN [linkN "https://example.com" [textN "Foo"],
        textN " - Done ✅"]]) = [] := by
  constructor
  · intro s t h1 h2 h3
    have e1 : endsQuoteThenPunct s = false := by
      cases hq : endsQuoteThenPunct s
      · rfl
      · rw [endsQuoteThenPunct_hasPunct hq] at h2; cases h2
    have e2 : endsPunctOptQuote s = false := by
      cases hq : endsPunctOptQuote s
      · rfl
      · rw [endsPunctOptQuote_hasPunct hq] at h2; cases h2
    unfold validateListItemSuffix
    rcases h3 with h3 | h3 <;> simp [h1, e1, e2, h2, h3]
  · decide

/-- C8 witness: a punctuation-free three-token description fails. -/
theorem c8_witness :
    validateListItemSuffix "Alpha beta gamma" "gamma" = false :=
  c8_amended.1 "Alpha beta gamma" "gamma" (by decide) (by decide)
    (Or.inl (by decide))

/-! ## Claim C9 -/

theorem skipFiller_len_aux : ∀ (d : List Node) (link : Node), d ≠ [] →
    1 ≤ (skipFiller link d).2.length ∧ (skipFiller link d).2.length ≤ d.length := by
  intro d
  induction d with
  | nil => intro link h; exact absurd rfl h
  | cons a rest ih =>
    intro link _
    cases rest with
    | nil => exact ⟨by simp [skipFiller], by simp [skipFiller]⟩
    | cons b rest2 =>
      simp only [skipFiller]
      split
      · obtain ⟨g1, g2⟩ := ih a (by simp)
        refine ⟨g1, le_trans g2 ?_⟩
        simp [List.length_cons]
      · exact ⟨by simp, by simp⟩

/-- C9: the filler-skipping loop terminates (it is structural recursion on
the shrinking description list) and, whenever it runs at least one step
(non-link-like candidate with more than one description element left), the
final description is non-empty and strictly shorter than the input. -/
theorem c9_skipFiller_shrinks (link : Node) (d : List Node)
    (h1 : link.type ≠ NodeType.linkReference ∧ link.type ≠ NodeType.link)
    (h2 : 1 < d.length) :
    1 ≤ (skipFiller link d).2.length ∧ (skipFiller link d).2.length < d.length := by
  cases d with
  | nil => simp at h2
  | cons a rest =>
    cases rest with
    | nil => simp at h2
    | cons b rest2 =>
      have hcond : (!(link.type == NodeType.linkReference) &&
          !(link.type == NodeType.link)) = true := by
        simp [h1.1, h1.2]
      simp only [skipFiller, hcond, if_true]
      obtain ⟨g1, g2⟩ := skipFiller_len_aux (b :: rest2) a (by simp)
      refine ⟨g1, lt_of_le_of_lt g2 ?_⟩
      simp [List.length_cons]

/-- C9 witness: an image-led entry tail with two remaining elements. -/
theorem c9_witness :
    1 ≤ (skipFiller (imageN "x") [imageN "y", textN " - Z."]).2.length ∧
      (skipFiller (imageN "x") [imageN "y", textN " - Z."]).2.length <
        ([imageN "y", textN " - Z."] : List Node).length :=
  c9_skipFiller_shrinks (imageN "x") [imageN "y", textN " - Z."]
    ⟨by decide, by decide⟩ (by decide)

/-! ## Claim C10 -/

theorem hasHeading_false_type {n : Node} (h : hasHeading n = false) :
    (n.type == NodeType.heading) = false := by
  cases n with
  | mk t v u a d cs =>
    by_cases hk : t = NodeType.heading
    · subst hk; simp [hasHeading] at h
    · simp [Node.type, hk]

def blockquoteN (cs : List Node) : Node :=
  Node.mk NodeType.blockquote none none none none cs

/-- A document containing a depth-2 `Contents` heading (nested inside a
blockquote) with no heading node anywhere after it, plus a malformed list
entry. -/
def c10NestedDoc : Node :=
  rootN [blockquoteN [headingN 2 [textN "Contents"]], listN [listItemN []]]

/-- C10 counterexample: the document contains a depth-2 `Contents` heading
(the one the rule finds) and no heading node anywhere after it, yet the
rule does not return normally with no diagnostics: the found heading is not
a direct child of the root, so `findAllAfter` throws a TypeError (modelled
as `none`, distinct from the claimed `some []`). -/
theorem c10_counterexample :
    findNode contentsHeading c10NestedDoc = some (headingN 2 [textN "Contents"]) ∧
      contentsHeading (headingN 2 [textN "Contents"]) = true ∧
      hasHeading (listN [listItemN []]) = false ∧
      listItemRule c10NestedDoc = none ∧
      (none : Option (List Msg)) ≠ some [] := by
  refine ⟨rfl, by decide, by decide, by decide, by decide⟩

/-- C10 (amended): a document whose first matching `Contents` heading is a
direct child of the root and is followed by no heading node anywhere among
the later root children returns from the rule immediately with no
diagnostics, however malformed its lists are; when the found heading is
nested deeper, the library lookup throws instead. -/
theorem c10_contents_early_return (ast h : Node) (i : Nat)
    (hfind : findNode contentsHeading ast = some h)
    (hidx : indexOfNode h ast.children = some i)
    (hafter : (ast.children.drop (i + 1)).all (fun n => !(hasHeading n)) = true) :
    listItemRule ast = some [] := by
  have hfilter :
      (ast.children.drop (i + 1)).filter (fun n => n.type == NodeType.heading) = [] := by
    rw [List.filter_eq_nil_iff]
    intro n hn
    have hall := (List.all_eq_true.mp hafter) n hn
    have hh : hasHeading n = false := by simpa using hall
    simp [hasHeading_false_type hh]
  unfold listItemRule findAllAfter
  simp only [hfind, hidx, hfilter]
  rfl

/-- C10 witness: a document with a `Contents` heading, no later heading,
and a malformed list entry that would be flagged if it were validated. -/
theorem c10_witness :
    listItemRule (rootN [headingN 2 [textN "Contents"], listN [listItemN []]]) =
        some [] ∧
      validateEntry (listItemN []) = [Msg.invalidListItem] :=
  ⟨c10_contents_early_return
      (rootN [headingN 2 [textN "Contents"], listN [listItemN []]])
      (headingN 2 [textN "Contents"]) 0 rfl rfl (by decide),
    by decide⟩

end AwesomeLint
